import Mathlib

/-!
# Lovi: the log table model and the line searcher

A shallow embedding of `LogModel` (src/logmodel.cpp) and of the `Searcher`
exercised by src/tests/SearcherTest.cpp.

Conventions of the embedding:

* a C++ `int` that can be negative at the call site (`index.row()`,
  `index.column()`, `role`, `Condition::column()`) is an `Int`;
* `QString` is `String`, `QStringList`, `QVector<T>` and `std::vector<T>` are `List`;
* a container access that Qt guards with `Q_ASSERT` (`at`, `operator[]`,
  `removeFirst`) returns an `Option`, `none` standing for the failed assertion;
* `LogModel::data` is `const` in C++ but writes the `mutable` row cache, so it
  returns the new model next to its value;
* Qt library types (`QColor`, `QVariant`, `QRegularExpression`, `QModelIndex`)
  are records holding exactly the observations the model makes of them.
-/

namespace Lovi

/-! ## Qt value types -/

/-- A `QColor`: a default-constructed colour is invalid. -/
structure QColor where
  valid : Bool
  rgba : Nat
deriving DecidableEq, Repr

/-- The default-constructed, invalid `QColor()`. -/
def QColor.invalid : QColor := ⟨false, 0⟩

/-- The colour `QColor::fromRgba(rgba)`, which is valid. -/
def QColor.fromRgba (rgba : Nat) : QColor := ⟨true, rgba⟩

def QColor.isValid (c : QColor) : Bool := c.valid

/-- The `QVariant` values `LogModel` produces: `QVariant()`, a string or a colour. -/
inductive QVariant where
  | invalid
  | string (s : String)
  | color (c : QColor)
deriving DecidableEq, Repr

/-- Embeds `Qt::DisplayRole`. -/
def DisplayRole : Int := 0
/-- Embeds `Qt::BackgroundColorRole`. -/
def BackgroundColorRole : Int := 8
/-- Embeds `Qt::TextColorRole`. -/
def TextColorRole : Int := 9

inductive Orientation where
  | Horizontal
  | Vertical
deriving DecidableEq, Repr

/-- A `QModelIndex`: row, column and whether it points into a model. The
default-constructed index is `(-1, -1)` without a model. -/
structure QModelIndex where
  row : Int
  column : Int
  hasModel : Bool
deriving DecidableEq, Repr

/-- Embeds `QModelIndex::isValid()`. -/
def QModelIndex.isValid (i : QModelIndex) : Bool :=
  decide (0 ≤ i.row) && decide (0 ≤ i.column) && i.hasModel

/-- The root index `QModelIndex()`. -/
def QModelIndex.root : QModelIndex := ⟨-1, -1, false⟩

/-- Embeds `QList<T>::at(i)` / `QVector<T>::at(i)` / `operator[]`: asserts `0 <= i < size`. -/
def QList.at {α : Type} (l : List α) (i : Int) : Option α :=
  if i < 0 then none else l[i.toNat]?

/-- Embeds `QList<T>::removeFirst()`: asserts that the list is not empty. -/
def QList.removeFirst {α : Type} : List α → Option (List α)
  | [] => none
  | _ :: rest => some rest

/-- Embeds `QChar::isSpace()`: the ASCII blanks, NEL, NBSP and the Unicode separator
categories Zs, Zl and Zp. -/
def isSpace (c : Char) : Bool :=
  let u := c.toNat
  u == 0x20 || (0x09 ≤ u && u ≤ 0x0d) || u == 0x85 || u == 0xa0 || u == 0x1680 ||
    (0x2000 ≤ u && u ≤ 0x200a) || u == 0x2028 || u == 0x2029 || u == 0x202f ||
    u == 0x205f || u == 0x3000

/-- Embeds `QString::trimmed()` on the characters of a string: whitespace is dropped
from the start and from the end. -/
def trimmedChars (cs : List Char) : List Char :=
  ((cs.dropWhile isSpace).reverse.dropWhile isSpace).reverse

/-- Embeds `QString::trimmed()`. -/
def trimmed (s : String) : String := String.mk (trimmedChars s.data)

/-! ## Conditions, highlights and the parser -/

/-- The abstract class `Condition`: the column it is bound to and its predicate. -/
structure Condition where
  column : Int
  eval : String → Bool

structure Highlight where
  condition : Condition
  bgColor : QColor
  fgColor : QColor

/-- A `QRegularExpressionMatch`: whether the line matched, and per capture group
(group 0 is the whole match) the captured substring, `none` for a group that did
not take part in the match. -/
structure QRegularExpressionMatch where
  hasMatch : Bool
  groups : List (Option String)

/-- Embeds `QRegularExpressionMatch::captured(nth)`: the null string when group `nth`
captured nothing or does not exist. -/
def QRegularExpressionMatch.captured (m : QRegularExpressionMatch) (nth : Nat) : String :=
  match m.groups[nth]? with
  | some (some s) => s
  | _ => ""

/-- A `QRegularExpression` as `LogModel` sees it: the list `namedCaptureGroups()`
(entry 0 stands for the whole match; the list is empty for an invalid pattern)
and the matcher. -/
structure QRegularExpression where
  namedCaptureGroups : List String
  doMatch : String → QRegularExpressionMatch

structure Config where
  parser : QRegularExpression
  highlights : List Highlight

/-! ## LogModel -/

structure LogCell where
  text : String := ""
  bgColor : QColor := QColor.invalid
  fgColor : QColor := QColor.invalid
deriving DecidableEq, Repr

/-- Modelled from the spec: the struct `LogLine` of logmodel.h, which is not
among the sources. It holds the vector `cells`. A row is valid iff it is a
matched row; `processLine` returns a default-constructed `LogLine` for an
unmatched line and a `LogLine` whose `cells` were resized to the column count
for a matched one, so a row is valid iff it has cells (with zero columns both
paths build the same object). -/
structure LogLine where
  cells : List LogCell := []
deriving DecidableEq, Repr

def LogLine.isValid (l : LogLine) : Bool := !l.cells.isEmpty

/-- The fields of `LogModel`; `mLogLineCache` is the `QHash<int, LogLine>`. -/
structure LogModel where
  mConfig : Config
  mLines : List String
  mColumns : List String
  mLogLineCache : List (Int × LogLine)

/-- Embeds `QHash::find`: the value stored under `key`, if any. -/
def QHash.find (h : List (Int × LogLine)) (key : Int) : Option LogLine :=
  match h with
  | [] => none
  | (k, v) :: rest => if k = key then some v else QHash.find rest key

/-- Embeds `QHash::operator[](key) = value`: insert or overwrite. -/
def QHash.insert (h : List (Int × LogLine)) (key : Int) (value : LogLine) :
    List (Int × LogLine) :=
  (key, value) :: h.filter (fun e => decide (e.1 ≠ key))

/-- Embeds `LogModel::applyHighlights` over the highlight list: the loop returns at the
first highlight bound to `column` whose condition holds on the cell text. -/
def applyHighlightsLoop (highlights : List Highlight) (cell : LogCell) (column : Int) : LogCell :=
  match highlights with
  | [] => cell
  | highlight :: rest =>
    if highlight.condition.column = column then
      if highlight.condition.eval cell.text then
        { cell with bgColor := highlight.bgColor, fgColor := highlight.fgColor }
      else applyHighlightsLoop rest cell column
    else applyHighlightsLoop rest cell column

/-- Embeds `LogModel::applyHighlights(cell, column)`. -/
def LogModel.applyHighlights (m : LogModel) (cell : LogCell) (column : Int) : LogCell :=
  applyHighlightsLoop m.mConfig.highlights cell column

/-- Embeds `LogModel::processLine(line)`: the default `LogLine` when the parser does not
match, else one cell per column, cell `column` holding the trimmed capture
`column + 1` with the highlights applied. -/
def LogModel.processLine (m : LogModel) (line : String) : LogLine :=
  let mt := m.mConfig.parser.doMatch line
  if !mt.hasMatch then {}
  else
    let count := m.mColumns.length
    { cells := (List.range count).map fun column =>
        m.applyHighlights { text := trimmed (mt.captured (column + 1)) } (column : Int) }

/-- Embeds `LogModel::rowCount(parent)`. -/
def LogModel.rowCount (m : LogModel) (parent : QModelIndex) : Int :=
  if parent.isValid then 0 else m.mLines.length

/-- Embeds `LogModel::columnCount(parent)`. -/
def LogModel.columnCount (m : LogModel) (parent : QModelIndex) : Int :=
  if parent.isValid then 0 else m.mColumns.length

/-- Embeds `LogModel::columns()`. -/
def LogModel.columns (m : LogModel) : List String := m.mColumns

/-- What one call of `LogModel::data` yields: the returned variant (`none` when a
container assertion failed), the model with its updated cache, and the
`qWarning` diagnostic (1-based line number and raw line) if one was written. -/
structure DataResult where
  value : Option QVariant
  model : LogModel
  warning : Option (Int × String)

/-- The second half of `LogModel::data`, from the `isValid` test on: what is
returned for the row `logLine` parsed from `line`. An invalid row shows its raw
line in column `mColumns.count() - 1` under `DisplayRole`; a valid row is read
at `cells.at(index.column())` and answers the three roles. -/
def LogModel.cellData (m : LogModel) (line : String) (logLine : LogLine)
    (index : QModelIndex) (role : Int) : Option QVariant :=
  if !logLine.isValid then
    some (if role = DisplayRole ∧ index.column = (m.mColumns.length : Int) - 1
          then QVariant.string line else QVariant.invalid)
  else
    match QList.at logLine.cells index.column with
    | none => none
    | some cell =>
      some (
        if role = BackgroundColorRole then
          (if cell.bgColor.isValid then QVariant.color cell.bgColor else QVariant.invalid)
        else if role = TextColorRole then
          (if cell.fgColor.isValid then QVariant.color cell.fgColor else QVariant.invalid)
        else if role = DisplayRole then QVariant.string cell.text
        else QVariant.invalid)

/-- Embeds `LogModel::data(index, role)`: the row check, the cache lookup that parses
and stores the row on a miss, then `cellData`. -/
def LogModel.data (m : LogModel) (index : QModelIndex) (role : Int) : DataResult :=
  let row := index.row
  if row < 0 ∨ row ≥ m.mLines.length then ⟨some QVariant.invalid, m, none⟩
  else
    match QList.at m.mLines row with
    | none => ⟨none, m, none⟩
    | some line =>
      match QHash.find m.mLogLineCache row with
      | none =>
        let logLine := m.processLine line
        ⟨ m.cellData line logLine index role,
          { m with mLogLineCache := QHash.insert m.mLogLineCache row logLine },
          if !logLine.isValid then some (row + 1, line) else none ⟩
      | some cached => ⟨m.cellData line cached index role, m, none⟩

/-- Embeds `LogModel::headerData(section, orientation, role)`; `none` when
`mColumns.at(section)` is out of range. -/
def LogModel.headerData (m : LogModel) (section_ : Int) (orientation : Orientation)
    (role : Int) : Option QVariant :=
  if orientation = Orientation.Vertical then some QVariant.invalid
  else if role = DisplayRole then (QList.at m.mColumns section_).map QVariant.string
  else some QVariant.invalid

/-- Embeds `LogModel::setConfig(config)`: the columns are the parser's group names
without the first one and the cache is cleared; `none` when `removeFirst` is
called on an empty list. `beginResetModel` and `endResetModel` only notify the
views and leave the fields alone. -/
def LogModel.setConfig (m : LogModel) (config : Config) : Option LogModel :=
  match QList.removeFirst config.parser.namedCaptureGroups with
  | none => none
  | some columns =>
    some { m with mConfig := config, mColumns := columns, mLogLineCache := [] }

/-- The constructor `LogModel(config, lines)`: stores the lines, then `setConfig`. -/
def LogModel.create (config : Config) (lines : List String) : Option LogModel :=
  LogModel.setConfig
    { mConfig := config, mLines := lines, mColumns := [], mLogLineCache := [] } config

/-- The states a `LogModel` can be in: built by the constructor, then any
sequence of `data` reads and successful `setConfig` calls. -/
inductive Reachable : LogModel → Prop where
  | create (config : Config) (lines : List String) (m : LogModel) :
      LogModel.create config lines = some m → Reachable m
  | data (m : LogModel) (index : QModelIndex) (role : Int) :
      Reachable m → Reachable (m.data index role).model
  | setConfig (m : LogModel) (config : Config) (m2 : LogModel) :
      Reachable m → m.setConfig config = some m2 → Reachable m2

/-- The same model without any cached row. -/
def LogModel.uncached (m : LogModel) : LogModel := { m with mLogLineCache := [] }

/-- The cache holds no stale row: every cached row is the parse of its own line
under the active configuration. -/
def cacheFresh (m : LogModel) : Prop :=
  ∀ (row : Int) (logLine : LogLine), QHash.find m.mLogLineCache row = some logLine →
    ∃ line, QList.at m.mLines row = some line ∧ logLine = m.processLine line

/-! ## Searcher -/

inductive SearchDirection where
  | Down
  | Up
deriving DecidableEq, Repr

/-- The enum `SearchResponse::Result`. -/
inductive SearchResult where
  | DirectHit
  | WrappedUp
  | WrappedDown
  | NoHit
deriving DecidableEq, Repr

/-- Modelled from the spec: the struct `SearchResponse` of Searcher.h, which is
not among the sources: `{ result, row }`. -/
structure SearchResponse where
  result : SearchResult
  row : Int
deriving DecidableEq, Repr

/-- Modelled from the spec: the default-constructed `SearchResponse`, which the
test passes as `{}`. Its result is `NoHit`; the spec leaves its row open ("not
meaningful"), so the row is the parameter `noRow`. -/
def SearchResponse.default (noRow : Int) : SearchResponse := ⟨SearchResult.NoHit, noRow⟩

/-- The abstract class `Searchable` that `StringListSearchable` overrides: the
number of lines and the per-row predicate. Rows and counts are naturals. -/
structure Searchable where
  lineCount : Nat
  lineMatches : Nat → Condition → Bool

/-- The `StringListSearchable` of SearcherTest.cpp: rows at or past the end never
match, the others are matched on their text. -/
def StringListSearchable (mLines : List String) : Searchable where
  lineCount := mLines.length
  lineMatches row condition :=
    if row ≥ mLines.length then false
    else
      match mLines[row]? with
      | some line => condition.eval line
      | none => false

/-- The rows `first .. last` of a data set in increasing order (none when
`last < first`). -/
def rowsFromTo (first last : Nat) : List Nat := List.range' first (last + 1 - first)

/-- Modelled from the spec: the search of `Searcher::start` (Searcher.cpp is not
among the sources), section 4.5 with the boundary of the Down scan fixed by the
test oracle of SearcherTest.cpp, which the spec declares authoritative over its
prose ("Down from row 2 with pattern ^b yields DirectHit at row 2"):

* no lines: `NoHit` at once;
* Down: scan rows `start .. lineCount-1` increasing, first match is a
  `DirectHit`; else wrap and scan rows `0 .. start` increasing, first match is
  `WrappedDown`; else `NoHit`;
* Up: scan rows `start-1 .. 0` decreasing, first match is a `DirectHit`; else
  wrap and scan rows `lineCount-1 .. start` decreasing, first match is
  `WrappedUp`; else `NoHit`.

A scan visits rows of the data set only: a range that would leave
`0 .. lineCount-1` is cut there ("if no row in the entire data set matches,
report NoHit"). -/
def Searcher.search (noRow : Int) (searchable : Searchable) (condition : Condition)
    (direction : SearchDirection) (startRow : Nat) : SearchResponse :=
  if searchable.lineCount = 0 then SearchResponse.default noRow
  else
    let last := searchable.lineCount - 1
    let hit := fun row => searchable.lineMatches row condition
    match direction with
    | SearchDirection.Down =>
      match (rowsFromTo startRow last).find? hit with
      | some row => ⟨SearchResult.DirectHit, row⟩
      | none =>
        match (rowsFromTo 0 (min startRow last)).find? hit with
        | some row => ⟨SearchResult.WrappedDown, row⟩
        | none => SearchResponse.default noRow
    | SearchDirection.Up =>
      match (List.range (min startRow searchable.lineCount)).reverse.find? hit with
      | some row => ⟨SearchResult.DirectHit, row⟩
      | none =>
        match (rowsFromTo startRow last).reverse.find? hit with
        | some row => ⟨SearchResult.WrappedUp, row⟩
        | none => SearchResponse.default noRow

/-- Modelled from the spec: `Searcher::start`, as the list of `finished`
signals it emits (what the `QSignalSpy` of the test records): the response of
the search, once. -/
def Searcher.start (noRow : Int) (searchable : Searchable) (condition : Condition)
    (direction : SearchDirection) (startRow : Nat) : List SearchResponse :=
  [Searcher.search noRow searchable condition direction startRow]

/-! ## Concrete data used by the worked examples -/

/-- A condition on `column` that holds when the text starts with `start`: the
regular-expression condition `^start` for a literal `start`. -/
def startsWithCondition (column : Int) (start : String) : Condition where
  column := column
  eval text := start.data.isPrefixOf text.data

/-- The lines of SearcherTest.cpp. -/
def testLines : List String := ["foo", "bar", "baz"]

/-- The parser `^(?<key>[^=]*)=(?<value>.*)$`: a line matches when it holds an
equals sign; group 1 is the text before the first one, group 2 the text after it. -/
def keyValueParser : QRegularExpression where
  namedCaptureGroups := ["", "key", "value"]
  doMatch line :=
    if '=' ∈ line.data then
      { hasMatch := true
        groups := [some line, some (String.mk (line.data.takeWhile (fun ch => ch != '='))),
                   some (String.mk ((line.data.dropWhile (fun ch => ch != '=')).drop 1))] }
    else { hasMatch := false, groups := [] }

/-- The parser `^foo$`, which has no capture group. -/
def fooParser : QRegularExpression where
  namedCaptureGroups := [""]
  doMatch line :=
    if line = "foo" then { hasMatch := true, groups := [some line] }
    else { hasMatch := false, groups := [] }

/-- Three highlights: one bound to column 1, then two bound to column 0 that
both hold on a text starting with `err`. -/
def exampleHighlights : List Highlight :=
  [ ⟨startsWithCondition 1 "", QColor.fromRgba 1, QColor.fromRgba 11⟩,
    ⟨startsWithCondition 0 "err", QColor.fromRgba 2, QColor.fromRgba 12⟩,
    ⟨startsWithCondition 0 "e", QColor.fromRgba 3, QColor.invalid⟩ ]

def exampleConfig : Config := ⟨keyValueParser, exampleHighlights⟩

def exampleLines : List String := ["error = disk full ", "no separator here", " warn=low"]

/-- The model `LogModel(exampleConfig, exampleLines)` right after construction. -/
def exampleModel : LogModel :=
  { mConfig := exampleConfig, mLines := exampleLines, mColumns := ["key", "value"],
    mLogLineCache := [] }

/-- A configuration whose parser has no capture group, hence no column. -/
def fooConfig : Config := ⟨fooParser, []⟩

/-- The model `LogModel(fooConfig, ["bar", "foo"])` right after construction. -/
def fooModel : LogModel :=
  { mConfig := fooConfig, mLines := ["bar", "foo"], mColumns := [], mLogLineCache := [] }

/-! ## Highlight matching -/

theorem applyHighlightsLoop_first (cell : LogCell) (column : Int) :
    ∀ (highlights : List Highlight) (i : Nat) (h : Highlight),
      highlights[i]? = some h →
      h.condition.column = column → h.condition.eval cell.text = true →
      (∀ (j : Nat) (h2 : Highlight), j < i → highlights[j]? = some h2 →
        ¬ (h2.condition.column = column ∧ h2.condition.eval cell.text = true)) →
      applyHighlightsLoop highlights cell column =
        { cell with bgColor := h.bgColor, fgColor := h.fgColor } := by
  intro highlights
  induction highlights with
  | nil => intro i h hget; simp at hget
  | cons hd tl ih =>
    intro i h hget hcol hev hprev
    cases i with
    | zero =>
      simp at hget
      subst hget
      simp [applyHighlightsLoop, hcol, hev]
    | succ k =>
      have hhd := hprev 0 hd (Nat.succ_pos k) (by simp)
      have htl : applyHighlightsLoop (hd :: tl) cell column = applyHighlightsLoop tl cell column := by
        by_cases hc : hd.condition.column = column
        · have he : hd.condition.eval cell.text = false := by
            cases hv : hd.condition.eval cell.text
            · rfl
            · exact absurd ⟨hc, hv⟩ hhd
          simp [applyHighlightsLoop, hc, he]
        · simp [applyHighlightsLoop, hc]
      rw [htl]
      apply ih k h (by simpa using hget) hcol hev
      intro j h2 hj hget2
      exact hprev (j + 1) h2 (Nat.succ_lt_succ hj) (by simpa using hget2)

theorem applyHighlightsLoop_none (cell : LogCell) (column : Int) :
    ∀ (highlights : List Highlight),
      (∀ h ∈ highlights, ¬ (h.condition.column = column ∧ h.condition.eval cell.text = true)) →
      applyHighlightsLoop highlights cell column = cell := by
  intro highlights
  induction highlights with
  | nil => intro _; rfl
  | cons hd tl ih =>
    intro hno
    have hhd := hno hd (List.mem_cons_self hd tl)
    have htl := ih (fun h hm => hno h (List.mem_cons_of_mem hd hm))
    by_cases hc : hd.condition.column = column
    · have he : hd.condition.eval cell.text = false := by
        cases hv : hd.condition.eval cell.text
        · rfl
        · exact absurd ⟨hc, hv⟩ hhd
      simp [applyHighlightsLoop, hc, he, htl]
    · simp [applyHighlightsLoop, hc, htl]

theorem processLine_matched (m : LogModel) (line : String)
    (hm : (m.mConfig.parser.doMatch line).hasMatch = true) :
    m.processLine line =
      { cells := (List.range m.mColumns.length).map fun column =>
          m.applyHighlights
            { text := trimmed ((m.mConfig.parser.doMatch line).captured (column + 1)) }
            (column : Int) } := by
  simp [LogModel.processLine, hm]

theorem processLine_unmatched (m : LogModel) (line : String)
    (hm : (m.mConfig.parser.doMatch line).hasMatch = false) :
    m.processLine line = {} := by
  simp [LogModel.processLine, hm]

theorem processLine_cell (m : LogModel) (line : String)
    (hm : (m.mConfig.parser.doMatch line).hasMatch = true) (c : Nat)
    (hc : c < m.mColumns.length) :
    (m.processLine line).cells[c]? =
      some (m.applyHighlights
        { text := trimmed ((m.mConfig.parser.doMatch line).captured (c + 1)) } (c : Int)) := by
  rw [processLine_matched m line hm]
  simp [List.getElem?_map, List.getElem?_range hc]

/-- C1: `applyHighlights(cell, column)` is first-match-wins. Whatever the
highlight list, the column and the cell: when the highlight at position `i` is
bound to `column` and holds on the cell text, and no highlight before it does
both, the cell gets exactly that highlight's background and foreground and keeps
its text (highlights of other columns and later matches do not count); when no
highlight is bound to `column` and holds, the cell is returned as it came in.
Each cell `processLine` builds for a matched line is the result of this on a
fresh cell, whose two colours are unset. -/
theorem C1_applyHighlights_first_match_wins (m : LogModel) (cell : LogCell) (column : Int) :
    (∀ (i : Nat) (h : Highlight), m.mConfig.highlights[i]? = some h →
        h.condition.column = column → h.condition.eval cell.text = true →
        (∀ (j : Nat) (h2 : Highlight), j < i → m.mConfig.highlights[j]? = some h2 →
          ¬ (h2.condition.column = column ∧ h2.condition.eval cell.text = true)) →
        (m.applyHighlights cell column).bgColor = h.bgColor ∧
        (m.applyHighlights cell column).fgColor = h.fgColor ∧
        (m.applyHighlights cell column).text = cell.text) ∧
    ((∀ h ∈ m.mConfig.highlights,
        ¬ (h.condition.column = column ∧ h.condition.eval cell.text = true)) →
      m.applyHighlights cell column = cell) ∧
    (∀ (line : String) (c : Nat), (m.mConfig.parser.doMatch line).hasMatch = true →
        c < m.mColumns.length →
        ∃ fresh : LogCell, fresh.bgColor.isValid = false ∧ fresh.fgColor.isValid = false ∧
          (m.processLine line).cells[c]? = some (m.applyHighlights fresh (c : Int))) := by
  refine ⟨?_, ?_, ?_⟩
  · intro i h hget hcol hev hprev
    have := applyHighlightsLoop_first cell column m.mConfig.highlights i h hget hcol hev hprev
    simp [LogModel.applyHighlights, this]
  · intro hno
    exact applyHighlightsLoop_none cell column m.mConfig.highlights hno
  · intro line c hm hc
    exact ⟨{ text := trimmed ((m.mConfig.parser.doMatch line).captured (c + 1)) }, rfl, rfl,
      processLine_cell m line hm c hc⟩

/-- C1 at work: on the text `error` in column 0 the highlight at position 1
wins over the column-1 highlight before it and the later match at position 2;
on the text `warn` no highlight of column 0 holds and the cell is unchanged. -/
theorem C1_applyHighlights_first_match_wins_witness :
    ((exampleModel.applyHighlights { text := "error" } 0).bgColor = QColor.fromRgba 2 ∧
      (exampleModel.applyHighlights { text := "error" } 0).fgColor = QColor.fromRgba 12 ∧
      (exampleModel.applyHighlights { text := "error" } 0).text = "error") ∧
    exampleModel.applyHighlights { text := "warn" } 0 = { text := "warn" } ∧
    (∃ fresh : LogCell, fresh.bgColor.isValid = false ∧ fresh.fgColor.isValid = false ∧
      (exampleModel.processLine "error = disk full ").cells[0]? =
        some (exampleModel.applyHighlights fresh ((0 : Nat) : Int))) :=
  ⟨(C1_applyHighlights_first_match_wins exampleModel { text := "error" } 0).1 1
      ⟨startsWithCondition 0 "err", QColor.fromRgba 2, QColor.fromRgba 12⟩ rfl rfl (by decide)
      (by
        intro j h2 hj hget
        have hj0 : j = 0 := by omega
        subst hj0
        have h2eq : h2 = ⟨startsWithCondition 1 "", QColor.fromRgba 1, QColor.fromRgba 11⟩ := by
          have : exampleModel.mConfig.highlights[0]? =
              some ⟨startsWithCondition 1 "", QColor.fromRgba 1, QColor.fromRgba 11⟩ := rfl
          rw [this] at hget
          exact (Option.some.inj hget).symm
        subst h2eq
        intro hboth
        exact absurd hboth.1 (by decide)),
    (C1_applyHighlights_first_match_wins exampleModel { text := "warn" } 0).2.1
      (by
        intro h hmem
        have hcases : h = ⟨startsWithCondition 1 "", QColor.fromRgba 1, QColor.fromRgba 11⟩ ∨
            h = ⟨startsWithCondition 0 "err", QColor.fromRgba 2, QColor.fromRgba 12⟩ ∨
            h = ⟨startsWithCondition 0 "e", QColor.fromRgba 3, QColor.invalid⟩ := by
          simpa [exampleModel, exampleConfig, exampleHighlights] using hmem
        rcases hcases with rfl | rfl | rfl
        · intro hboth; exact absurd hboth.1 (by decide)
        · intro hboth; exact absurd hboth.2 (by decide)
        · intro hboth; exact absurd hboth.2 (by decide)),
    (C1_applyHighlights_first_match_wins exampleModel { text := "error" } 0).2.2
      "error = disk full " 0 (by decide) (by decide)⟩

/-! ## The row cache -/

theorem QHash.find_filter_ne (key key2 : Int) :
    ∀ h : List (Int × LogLine),
      QHash.find (h.filter (fun e => !decide (e.1 = key))) key2 =
        if key2 = key then none else QHash.find h key2 := by
  intro h
  induction h with
  | nil => simp [QHash.find]
  | cons e rest ih =>
    obtain ⟨k, v⟩ := e
    by_cases hk : k = key
    · subst hk
      by_cases h2 : key2 = k
      · subst h2; simpa [List.filter] using ih
      · have h3 : ¬ k = key2 := fun h => h2 h.symm
        simpa [List.filter, QHash.find, h2, h3] using ih
    · by_cases h2 : key2 = key
      · subst h2
        simpa [List.filter, hk, QHash.find] using ih
      · simp only [List.filter, hk, QHash.find, h2, decide_False, Bool.not_false, if_false]
        rw [ih]
        simp [h2]

theorem QHash.find_insert (h : List (Int × LogLine)) (key key2 : Int) (value : LogLine) :
    QHash.find (QHash.insert h key value) key2 =
      if key = key2 then some value else QHash.find h key2 := by
  by_cases hk : key = key2
  · simp [QHash.insert, QHash.find, hk]
  · have hk2 : ¬ key2 = key := fun h => hk h.symm
    simp [QHash.insert, QHash.find, hk, QHash.find_filter_ne, hk2]

theorem QList.at_isSome {α : Type} (l : List α) (i : Int) (h0 : 0 ≤ i) (h1 : i < l.length) :
    ∃ a, QList.at l i = some a := by
  have hlt : i.toNat < l.length := by omega
  refine ⟨l[i.toNat], ?_⟩
  simp [QList.at, not_lt.mpr h0, List.getElem?_eq_getElem hlt]

theorem QList.at_some_range {α : Type} (l : List α) (i : Int) (a : α)
    (h : QList.at l i = some a) : 0 ≤ i ∧ i < l.length := by
  unfold QList.at at h
  by_cases hi : i < 0
  · simp [hi] at h
  · simp only [hi, if_false] at h
    have := (List.getElem?_eq_some_iff.mp h).1
    omega

theorem processLine_congr (m m2 : LogModel) (hc : m2.mConfig = m.mConfig)
    (hcol : m2.mColumns = m.mColumns) (line : String) :
    m2.processLine line = m.processLine line := by
  simp [LogModel.processLine, LogModel.applyHighlights, hc, hcol]

theorem cellData_congr (m m2 : LogModel) (hcol : m2.mColumns = m.mColumns) (line : String)
    (logLine : LogLine) (index : QModelIndex) (role : Int) :
    m2.cellData line logLine index role = m.cellData line logLine index role := by
  simp [LogModel.cellData, hcol]

theorem data_model_fields (m : LogModel) (index : QModelIndex) (role : Int) :
    (m.data index role).model.mConfig = m.mConfig ∧
    (m.data index role).model.mLines = m.mLines ∧
    (m.data index role).model.mColumns = m.mColumns := by
  unfold LogModel.data
  by_cases hr : index.row < 0 ∨ index.row ≥ (m.mLines.length : Int)
  · simp [hr]
  · simp only [hr, if_false]
    cases QList.at m.mLines index.row with
    | none => simp
    | some line =>
      cases QHash.find m.mLogLineCache index.row with
      | none => simp
      | some cached => simp

theorem data_out_of_range (m : LogModel) (index : QModelIndex) (role : Int)
    (hr : index.row < 0 ∨ index.row ≥ (m.mLines.length : Int)) :
    (m.data index role).value = some QVariant.invalid ∧ (m.data index role).model = m ∧
      (m.data index role).warning = none := by
  simp [LogModel.data, hr]

theorem cacheFresh_data (m : LogModel) (index : QModelIndex) (role : Int)
    (hinv : cacheFresh m) : cacheFresh (m.data index role).model := by
  by_cases hr : index.row < 0 ∨ index.row ≥ (m.mLines.length : Int)
  · rw [(data_out_of_range m index role hr).2.1]; exact hinv
  · obtain ⟨hcfg, hlines, hcols⟩ := data_model_fields m index role
    intro row logLine hfind
    rw [hlines]
    simp only [processLine_congr m _ hcfg hcols]
    unfold LogModel.data at hfind
    simp only [hr, if_false] at hfind
    cases hat : QList.at m.mLines index.row with
    | none =>
      simp only [hat] at hfind
      exact hinv row logLine hfind
    | some line =>
      simp only [hat] at hfind
      cases hc : QHash.find m.mLogLineCache index.row with
      | some cached =>
        simp only [hc] at hfind
        exact hinv row logLine hfind
      | none =>
        simp only [hc, QHash.find_insert] at hfind
        by_cases hk : index.row = row
        · subst hk
          simp only [if_true] at hfind
          exact ⟨line, hat, (Option.some.inj hfind).symm⟩
        · simp only [hk, if_false] at hfind
          exact hinv row logLine hfind

theorem cacheFresh_setConfig (m m2 : LogModel) (config : Config)
    (h : m.setConfig config = some m2) :
    cacheFresh m2 ∧ m2.mLogLineCache = [] ∧ m2.mConfig = config ∧ m2.mLines = m.mLines ∧
      QList.removeFirst config.parser.namedCaptureGroups = some m2.mColumns := by
  unfold LogModel.setConfig at h
  cases hrm : QList.removeFirst config.parser.namedCaptureGroups with
  | none => simp [hrm] at h
  | some columns =>
    simp only [hrm] at h
    have h2 := Option.some.inj h
    subst h2
    refine ⟨?_, rfl, rfl, rfl, rfl⟩
    intro row logLine hfind
    simp [QHash.find] at hfind

theorem reachable_cacheFresh (m : LogModel) (hr : Reachable m) : cacheFresh m := by
  induction hr with
  | create config lines m h => exact (cacheFresh_setConfig _ m config h).1
  | data m index role _ ih => exact cacheFresh_data m index role ih
  | setConfig m config m2 _ h _ => exact (cacheFresh_setConfig m m2 config h).1

/-- With a fresh cache, a read of an in-range row answers from the parse of that
row's line, whether or not the row was cached. -/
theorem data_value (m : LogModel) (hinv : cacheFresh m) (index : QModelIndex) (role : Int)
    (h0 : 0 ≤ index.row) (h1 : index.row < (m.mLines.length : Int)) :
    ∃ line, QList.at m.mLines index.row = some line ∧
      (m.data index role).value = m.cellData line (m.processLine line) index role := by
  obtain ⟨line, hat⟩ := QList.at_isSome m.mLines index.row h0 h1
  refine ⟨line, hat, ?_⟩
  have hr : ¬ (index.row < 0 ∨ index.row ≥ (m.mLines.length : Int)) := by omega
  unfold LogModel.data
  simp only [hr, if_false, hat]
  cases hc : QHash.find m.mLogLineCache index.row with
  | none => rfl
  | some cached =>
    obtain ⟨line2, hat2, hcached⟩ := hinv index.row cached hc
    rw [hat] at hat2
    have := Option.some.inj hat2
    subst this
    simp [hcached]

theorem uncached_cacheFresh (m : LogModel) : cacheFresh m.uncached := by
  intro row logLine hfind
  simp [LogModel.uncached, QHash.find] at hfind

theorem data_value_uncached (m : LogModel) (hinv : cacheFresh m) (index : QModelIndex)
    (role : Int) : (m.data index role).value = (m.uncached.data index role).value := by
  by_cases hr : index.row < 0 ∨ index.row ≥ (m.mLines.length : Int)
  · rw [(data_out_of_range m index role hr).1]
    exact ((data_out_of_range m.uncached index role hr).1).symm
  · have h0 : 0 ≤ index.row := by omega
    have h1 : index.row < (m.mLines.length : Int) := by omega
    obtain ⟨line, hat, hv⟩ := data_value m hinv index role h0 h1
    obtain ⟨line2, hat2, hv2⟩ := data_value m.uncached (uncached_cacheFresh m) index role h0 h1
    have hat3 : QList.at m.mLines index.row = some line2 := hat2
    rw [hat] at hat3
    have := Option.some.inj hat3
    subst this
    rw [hv, hv2]
    rw [processLine_congr m m.uncached rfl rfl, cellData_congr m m.uncached rfl]

/-- C6: the row cache never holds a stale entry. In every state reached from the
constructor by `data` reads and `setConfig` calls, each cached row is
`processLine` of its own line under the active parser and highlights; so `data`
returns what the model with an empty cache returns, a repeated read returns the
same value again, and right after `setConfig` the model is the one the
constructor builds from the new config and the same lines (nothing cached). -/
theorem C6_cache_never_stale (m : LogModel) (hr : Reachable m) :
    (∀ (row : Int) (logLine : LogLine), QHash.find m.mLogLineCache row = some logLine →
      ∃ line, QList.at m.mLines row = some line ∧ logLine = m.processLine line) ∧
    (∀ (index : QModelIndex) (role : Int),
      (m.data index role).value = (m.uncached.data index role).value) ∧
    (∀ (index : QModelIndex) (role : Int),
      ((m.data index role).model.data index role).value = (m.data index role).value) ∧
    (∀ (config : Config) (m2 : LogModel), m.setConfig config = some m2 →
      LogModel.create config m.mLines = some m2 ∧ m2.mLogLineCache = []) := by
  have hinv := reachable_cacheFresh m hr
  refine ⟨hinv, fun index role => data_value_uncached m hinv index role, ?_, ?_⟩
  · intro index role
    have hinv2 := cacheFresh_data m index role hinv
    obtain ⟨hcfg, hlines, hcols⟩ := data_model_fields m index role
    rw [data_value_uncached _ hinv2, data_value_uncached m hinv]
    have : (m.data index role).model.uncached = m.uncached := by
      cases hm : (m.data index role).model with
      | mk c l cols cache =>
        rw [hm] at hcfg hlines hcols
        simp only at hcfg hlines hcols
        subst hcfg hlines hcols
        rfl
    rw [this]
  · intro config m2 h
    refine ⟨?_, (cacheFresh_setConfig m m2 config h).2.1⟩
    unfold LogModel.setConfig at h
    unfold LogModel.create LogModel.setConfig
    cases hrm : QList.removeFirst config.parser.namedCaptureGroups with
    | none => simp [hrm] at h
    | some columns =>
      simp only [hrm] at h ⊢
      rw [← Option.some.inj h]

/-! ## Trimming -/

/-- Trimming with `trimmed` removes whitespace and nothing else: the input is the result
between two runs of whitespace, and the result neither starts nor ends with a
whitespace character. -/
theorem trimmedChars_spec (cs : List Char) :
    ∃ pre post : List Char, cs = pre ++ trimmedChars cs ++ post ∧
      (∀ ch ∈ pre, isSpace ch = true) ∧ (∀ ch ∈ post, isSpace ch = true) ∧
      (∀ ch, (trimmedChars cs).head? = some ch → isSpace ch = false) ∧
      (∀ ch, (trimmedChars cs).getLast? = some ch → isSpace ch = false) := by
  have hsplit : cs.dropWhile isSpace =
      trimmedChars cs ++ ((cs.dropWhile isSpace).reverse.takeWhile isSpace).reverse := by
    unfold trimmedChars
    rw [← List.reverse_append, List.takeWhile_append_dropWhile, List.reverse_reverse]
  refine ⟨cs.takeWhile isSpace, ((cs.dropWhile isSpace).reverse.takeWhile isSpace).reverse,
    ?_, ?_, ?_, ?_, ?_⟩
  · rw [List.append_assoc, ← hsplit, List.takeWhile_append_dropWhile]
  · intro ch hch
    exact List.mem_takeWhile_imp hch
  · intro ch hch
    exact List.mem_takeWhile_imp (List.mem_reverse.mp hch)
  · intro ch hch
    have hhead : (cs.dropWhile isSpace).head? = some ch := by
      rw [hsplit, List.head?_append, hch]; rfl
    have := List.head?_dropWhile_not isSpace cs
    rw [hhead] at this
    simpa using this
  · intro ch hch
    have hhead : ((cs.dropWhile isSpace).reverse.dropWhile isSpace).head? = some ch := by
      unfold trimmedChars at hch
      simpa using hch
    have := List.head?_dropWhile_not isSpace (cs.dropWhile isSpace).reverse
    rw [hhead] at this
    simpa using this

theorem trimmed_empty : trimmed "" = "" := by decide

/-! ## Reading cells -/

theorem columnCount_root (m : LogModel) :
    m.columnCount QModelIndex.root = (m.mColumns.length : Int) := by
  simp [LogModel.columnCount, QModelIndex.isValid, QModelIndex.root]

theorem rowCount_root (m : LogModel) :
    m.rowCount QModelIndex.root = (m.mLines.length : Int) := by
  simp [LogModel.rowCount, QModelIndex.isValid, QModelIndex.root]

theorem applyHighlightsLoop_text (cell : LogCell) (column : Int) :
    ∀ highlights : List Highlight, (applyHighlightsLoop highlights cell column).text = cell.text := by
  intro highlights
  induction highlights with
  | nil => rfl
  | cons hd tl ih =>
    unfold applyHighlightsLoop
    split
    · split
      · rfl
      · exact ih
    · exact ih

theorem processLine_length (m : LogModel) (line : String)
    (hm : (m.mConfig.parser.doMatch line).hasMatch = true) :
    (m.processLine line).cells.length = m.mColumns.length := by
  rw [processLine_matched m line hm]
  simp

theorem processLine_valid_length (m : LogModel) (line : String)
    (hv : (m.processLine line).isValid = true) :
    (m.processLine line).cells.length = m.mColumns.length := by
  cases hm : (m.mConfig.parser.doMatch line).hasMatch with
  | true => exact processLine_length m line hm
  | false =>
    rw [processLine_unmatched m line hm] at hv
    simp [LogLine.isValid] at hv

/-- On a row that has a cell at `index.column()`, `cellData` answers the role
from that cell. -/
theorem cellData_of_cell (m : LogModel) (line : String) (logLine : LogLine)
    (index : QModelIndex) (role : Int) (c : Nat) (cell : LogCell)
    (hcol : index.column = (c : Int)) (hcell : logLine.cells[c]? = some cell) :
    m.cellData line logLine index role =
      some (
        if role = BackgroundColorRole then
          (if cell.bgColor.isValid then QVariant.color cell.bgColor else QVariant.invalid)
        else if role = TextColorRole then
          (if cell.fgColor.isValid then QVariant.color cell.fgColor else QVariant.invalid)
        else if role = DisplayRole then QVariant.string cell.text
        else QVariant.invalid) := by
  have hne : logLine.cells ≠ [] := by
    intro h
    rw [h] at hcell
    simp at hcell
  have hvalid : logLine.isValid = true := by
    cases hcs : logLine.cells with
    | nil => exact absurd hcs hne
    | cons a b => simp [LogLine.isValid, hcs]
  have hat : QList.at logLine.cells index.column = some cell := by
    simp [QList.at, hcol, hcell]
  simp [LogModel.cellData, hvalid, hat]

theorem cellData_unmatched (m : LogModel) (line : String) (index : QModelIndex) (role : Int) :
    m.cellData line {} index role =
      some (if role = DisplayRole ∧ index.column = (m.mColumns.length : Int) - 1
            then QVariant.string line else QVariant.invalid) := by
  simp [LogModel.cellData, LogLine.isValid]

/-- C5: an unmatched line is never dropped and never an error. In every
reachable state and for every row index in `0 .. rowCount-1` the row has its raw
line, and when the parser does not match that line, `data` returns the whole raw
line for `DisplayRole` in column `columnCount - 1` and an empty value for every
other column and every other role (so no colour in any column). -/
theorem C5_unmatched_line_shown_raw (m : LogModel) (hr : Reachable m) (index : QModelIndex)
    (h0 : 0 ≤ index.row) (h1 : index.row < m.rowCount QModelIndex.root) :
    ∃ line, QList.at m.mLines index.row = some line ∧
      ((m.mConfig.parser.doMatch line).hasMatch = false →
        ∀ role : Int,
          (m.data index role).value =
            some (if role = DisplayRole ∧
                    index.column = m.columnCount QModelIndex.root - 1
                  then QVariant.string line else QVariant.invalid)) := by
  rw [rowCount_root] at h1
  obtain ⟨line, hat, hv⟩ := data_value m (reachable_cacheFresh m hr) index 0 h0 h1
  refine ⟨line, hat, ?_⟩
  intro hm role
  obtain ⟨line2, hat2, hv2⟩ := data_value m (reachable_cacheFresh m hr) index role h0 h1
  rw [hat] at hat2
  have := Option.some.inj hat2
  subst this
  rw [hv2, processLine_unmatched m line hm, cellData_unmatched, columnCount_root]

/-- C7: for a line the parser matches and a column `c` below the column count,
`processLine` builds a cell for `c` whose text is capture `c + 1` trimmed: the
capture is that text between two runs of whitespace, and the text neither
starts nor ends with whitespace. The text is empty when group `c + 1` took no
part in the match (or does not exist), and in every reachable state `data`
returns exactly this text for `DisplayRole` at `(row, c)` of a row holding the
line. -/
theorem C7_cell_text_is_trimmed_capture (m : LogModel) (line : String) (c : Nat)
    (hm : (m.mConfig.parser.doMatch line).hasMatch = true)
    (hc : (c : Int) < m.columnCount QModelIndex.root) :
    ∃ cell : LogCell, (m.processLine line).cells[c]? = some cell ∧
      cell.text = trimmed ((m.mConfig.parser.doMatch line).captured (c + 1)) ∧
      (∀ s, (m.mConfig.parser.doMatch line).groups[c + 1]? = some (some s) →
        cell.text = trimmed s) ∧
      ((m.mConfig.parser.doMatch line).groups[c + 1]? = some none ∨
        (m.mConfig.parser.doMatch line).groups[c + 1]? = none → cell.text = "") ∧
      (∃ pre post : List Char,
        ((m.mConfig.parser.doMatch line).captured (c + 1)).data =
          pre ++ cell.text.data ++ post ∧
        (∀ ch ∈ pre, isSpace ch = true) ∧ (∀ ch ∈ post, isSpace ch = true) ∧
        (∀ ch, cell.text.data.head? = some ch → isSpace ch = false) ∧
        (∀ ch, cell.text.data.getLast? = some ch → isSpace ch = false)) ∧
      (Reachable m → ∀ index : QModelIndex, QList.at m.mLines index.row = some line →
        index.column = (c : Int) →
        (m.data index DisplayRole).value = some (QVariant.string cell.text)) := by
  rw [columnCount_root] at hc
  have hc2 : c < m.mColumns.length := by exact_mod_cast hc
  have hcell := processLine_cell m line hm c hc2
  have htext : (m.applyHighlights
      { text := trimmed ((m.mConfig.parser.doMatch line).captured (c + 1)) } (c : Int)).text =
      trimmed ((m.mConfig.parser.doMatch line).captured (c + 1)) :=
    applyHighlightsLoop_text _ _ _
  refine ⟨_, hcell, htext, ?_, ?_, ?_, ?_⟩
  · intro s hs
    rw [htext]
    simp [QRegularExpressionMatch.captured, hs]
  · intro hnone
    rw [htext]
    rcases hnone with h | h
    · simp [QRegularExpressionMatch.captured, h, trimmed_empty]
    · simp [QRegularExpressionMatch.captured, h, trimmed_empty]
  · rw [htext]
    exact trimmedChars_spec _
  · intro hr index hat hcol
    obtain ⟨h0, h1⟩ := QList.at_some_range _ _ _ hat
    obtain ⟨line2, hat2, hv⟩ := data_value m (reachable_cacheFresh m hr) index DisplayRole h0 h1
    rw [hat] at hat2
    have := Option.some.inj hat2
    subst this
    rw [hv, cellData_of_cell m line _ index DisplayRole c _ hcol hcell]
    simp [DisplayRole, BackgroundColorRole, TextColorRole]

/-- C10: a matched row has exactly `columnCount` cells. `processLine` returns
`columnCount` cells for every line the parser matches; in every reachable state
each cached row that is valid, or whose line the parser matches, has
`columnCount` cells; and for every in-range row and every column in
`0 .. columnCount-1` the read succeeds: `cells.at(column)` is within bounds. -/
theorem C10_matched_row_has_columnCount_cells (m : LogModel) :
    (∀ line : String, (m.mConfig.parser.doMatch line).hasMatch = true →
      ((m.processLine line).cells.length : Int) = m.columnCount QModelIndex.root) ∧
    (Reachable m →
      (∀ (row : Int) (logLine : LogLine), QHash.find m.mLogLineCache row = some logLine →
        (logLine.isValid = true ∨
          ∃ line, QList.at m.mLines row = some line ∧
            (m.mConfig.parser.doMatch line).hasMatch = true) →
        (logLine.cells.length : Int) = m.columnCount QModelIndex.root) ∧
      (∀ (index : QModelIndex) (role : Int), 0 ≤ index.row →
        index.row < m.rowCount QModelIndex.root → 0 ≤ index.column →
        index.column < m.columnCount QModelIndex.root →
        ∃ v, (m.data index role).value = some v)) := by
  refine ⟨?_, ?_⟩
  · intro line hm
    rw [columnCount_root, processLine_length m line hm]
  · intro hr
    have hinv := reachable_cacheFresh m hr
    refine ⟨?_, ?_⟩
    · intro row logLine hfind hmatched
      obtain ⟨line, hat, hll⟩ := hinv row logLine hfind
      rw [columnCount_root]
      subst hll
      rcases hmatched with hv | ⟨line2, hat2, hm⟩
      · rw [processLine_valid_length m line hv]
      · rw [hat] at hat2
        have := Option.some.inj hat2
        subst this
        rw [processLine_length m line hm]
    · intro index role h0 h1 hc0 hc1
      rw [rowCount_root] at h1
      rw [columnCount_root] at hc1
      obtain ⟨line, hat, hv⟩ := data_value m hinv index role h0 h1
      rw [hv]
      cases hm : (m.mConfig.parser.doMatch line).hasMatch with
      | false =>
        rw [processLine_unmatched m line hm, cellData_unmatched]
        exact ⟨_, rfl⟩
      | true =>
        have hlt : index.column.toNat < m.mColumns.length := by omega
        have hcol : index.column = (index.column.toNat : Int) := by omega
        have hcell := processLine_cell m line hm index.column.toNat hlt
        rw [cellData_of_cell m line _ index role index.column.toNat _ hcol hcell]
        exact ⟨_, rfl⟩

/-- C8, what fails: the column is not bounds-checked. On the matched row 0 of
`exampleModel` (two columns) a read at column 2 is `cells.at(2)` out of range;
on the unmatched row 0 of `fooModel` (no column) a read at column -1 returns
the raw line. Both states are reachable, so it is false that every read with an
out-of-range row or column returns an empty value. -/
theorem C8_counterexample :
    (exampleModel.data ⟨0, 2, true⟩ DisplayRole).value = none ∧
    (fooModel.data ⟨0, -1, true⟩ DisplayRole).value = some (QVariant.string "bar") ∧
    ¬ (∀ (m : LogModel), Reachable m → ∀ (index : QModelIndex) (role : Int),
        (index.row < 0 ∨ index.row ≥ m.rowCount QModelIndex.root ∨
          index.column < 0 ∨ index.column ≥ m.columnCount QModelIndex.root) →
        (m.data index role).value = some QVariant.invalid) := by
  have h1 : (exampleModel.data ⟨0, 2, true⟩ DisplayRole).value = none := by decide
  have h2 : (fooModel.data ⟨0, -1, true⟩ DisplayRole).value = some (QVariant.string "bar") := by
    decide
  refine ⟨h1, h2, ?_⟩
  intro hall
  have hreach : Reachable exampleModel :=
    Reachable.create exampleConfig exampleLines exampleModel rfl
  have := hall exampleModel hreach ⟨0, 2, true⟩ DisplayRole
    (Or.inr (Or.inr (Or.inr (by decide))))
  rw [h1] at this
  exact Option.noConfusion this

/-- C8, amended: `data` checks the row only. For every index whose row is
outside `0 .. rowCount-1`, every column and every role, `data` returns an empty
value and leaves the model as it was (no cache or cell lookup). In a reachable
state, for an in-range row whose line the parser does not match, `data` returns
an empty value for every role at every column other than `columnCount - 1`. -/
theorem C8_data_checks_row_only (m : LogModel) (index : QModelIndex) (role : Int) :
    ((index.row < 0 ∨ index.row ≥ m.rowCount QModelIndex.root) →
      (m.data index role).value = some QVariant.invalid ∧ (m.data index role).model = m) ∧
    (Reachable m → ∀ line : String, QList.at m.mLines index.row = some line →
      (m.mConfig.parser.doMatch line).hasMatch = false →
      index.column ≠ m.columnCount QModelIndex.root - 1 →
      (m.data index role).value = some QVariant.invalid) := by
  refine ⟨?_, ?_⟩
  · intro hrow
    rw [rowCount_root] at hrow
    have := data_out_of_range m index role hrow
    exact ⟨this.1, this.2.1⟩
  · intro hr line hat hm hcol
    obtain ⟨h0, h1⟩ := QList.at_some_range _ _ _ hat
    obtain ⟨line2, hat2, hv⟩ := data_value m (reachable_cacheFresh m hr) index role h0 h1
    rw [hat] at hat2
    have := Option.some.inj hat2
    subst this
    rw [columnCount_root] at hcol
    rw [hv, processLine_unmatched m line hm, cellData_unmatched]
    simp [hcol]

/-- C9: after `setConfig(config)`, from any prior model, with a parser whose
group-name list has its whole-match entry: the call succeeds, `columns()` is
that list without its first entry, so column `i` carries the name of capture
group `i + 1` for every `i` from 0 up to `columnCount - 1`, `columnCount(root)`
is the number of capture groups, `headerData(i, Horizontal, DisplayRole)` is the
name of column `i`, and `rowCount(root)` is unchanged and is the number of
lines. -/
theorem C9_setConfig_rebuilds_columns (m : LogModel) (config : Config)
    (hg : config.parser.namedCaptureGroups ≠ []) :
    ∃ m2 : LogModel, m.setConfig config = some m2 ∧
      m2.columns = config.parser.namedCaptureGroups.tail ∧
      m2.columnCount QModelIndex.root = (config.parser.namedCaptureGroups.length : Int) - 1 ∧
      (∀ i : Nat, (i : Int) < m2.columnCount QModelIndex.root →
        ∃ name, config.parser.namedCaptureGroups[i + 1]? = some name ∧
          m2.columns[i]? = some name ∧
          m2.headerData (i : Int) Orientation.Horizontal DisplayRole =
            some (QVariant.string name)) ∧
      m2.rowCount QModelIndex.root = m.rowCount QModelIndex.root ∧
      m2.rowCount QModelIndex.root = (m.mLines.length : Int) := by
  cases hgs : config.parser.namedCaptureGroups with
  | nil => exact absurd hgs hg
  | cons first names =>
    refine ⟨{ m with mConfig := config, mColumns := names, mLogLineCache := [] }, ?_, ?_, ?_,
      ?_, ?_, ?_⟩
    · simp [LogModel.setConfig, hgs, QList.removeFirst]
    · simp [LogModel.columns]
    · rw [columnCount_root]
      simp
    · intro i hi
      rw [columnCount_root] at hi
      have hi2 : i < names.length := by exact_mod_cast hi
      refine ⟨names[i], ?_, ?_, ?_⟩
      · simp [List.getElem?_eq_getElem hi2]
      · simp [LogModel.columns, List.getElem?_eq_getElem hi2]
      · simp [LogModel.headerData, QList.at, List.getElem?_eq_getElem hi2]
    · simp [rowCount_root]
    · simp [rowCount_root]

/-! ## Worked examples on the table model -/

theorem exampleModel_reachable : Reachable exampleModel :=
  Reachable.create exampleConfig exampleLines exampleModel rfl

theorem fooModel_reachable : Reachable fooModel :=
  Reachable.create fooConfig ["bar", "foo"] fooModel rfl

/-- C5 at work: row 1 of `exampleModel` holds no equals sign, so the parser does
not match it; its raw line is shown in the last column (column 1) and column 0
is empty, as is the background of column 1. -/
theorem C5_unmatched_line_shown_raw_witness :
    (exampleModel.data ⟨1, 1, true⟩ DisplayRole).value =
        some (QVariant.string "no separator here") ∧
      (exampleModel.data ⟨1, 1, true⟩ BackgroundColorRole).value = some QVariant.invalid ∧
      (exampleModel.data ⟨1, 0, true⟩ DisplayRole).value = some QVariant.invalid := by
  obtain ⟨line, hat, h⟩ :=
    C5_unmatched_line_shown_raw exampleModel exampleModel_reachable ⟨1, 1, true⟩
      (by decide) (by decide)
  obtain ⟨line0, hat0, h0⟩ :=
    C5_unmatched_line_shown_raw exampleModel exampleModel_reachable ⟨1, 0, true⟩
      (by decide) (by decide)
  have hline : line = "no separator here" := by
    have hk : QList.at exampleModel.mLines 1 = some "no separator here" := by decide
    exact Option.some.inj (hat.symm.trans hk)
  have hline0 : line0 = "no separator here" := by
    have hk : QList.at exampleModel.mLines 1 = some "no separator here" := by decide
    exact Option.some.inj (hat0.symm.trans hk)
  subst hline
  subst hline0
  refine ⟨?_, ?_, ?_⟩
  · rw [h (by decide) DisplayRole]; decide
  · rw [h (by decide) BackgroundColorRole]; decide
  · rw [h0 (by decide) DisplayRole]; decide

/-- C6 at work, in the state reached from `exampleModel` by one read of row 0:
the cached row 0 is the parse of line 0, a read of row 0 returns what the empty
cache returns, reading again returns the same, and `setConfig(fooConfig)` gives
the model the constructor builds. -/
theorem C6_cache_never_stale_witness :
    Reachable (exampleModel.data ⟨0, 0, true⟩ DisplayRole).model ∧
    (∃ line, QList.at (exampleModel.data ⟨0, 0, true⟩ DisplayRole).model.mLines 0 = some line ∧
      exampleModel.processLine "error = disk full " =
        (exampleModel.data ⟨0, 0, true⟩ DisplayRole).model.processLine line) ∧
    ((exampleModel.data ⟨0, 0, true⟩ DisplayRole).model.data ⟨0, 1, true⟩ DisplayRole).value =
      ((exampleModel.data ⟨0, 0, true⟩ DisplayRole).model.uncached.data
        ⟨0, 1, true⟩ DisplayRole).value ∧
    (((exampleModel.data ⟨0, 0, true⟩ DisplayRole).model.data
        ⟨0, 1, true⟩ DisplayRole).model.data ⟨0, 1, true⟩ DisplayRole).value =
      ((exampleModel.data ⟨0, 0, true⟩ DisplayRole).model.data ⟨0, 1, true⟩ DisplayRole).value ∧
    LogModel.create fooConfig (exampleModel.data ⟨0, 0, true⟩ DisplayRole).model.mLines =
      some { mConfig := fooConfig, mLines := exampleLines, mColumns := [],
             mLogLineCache := [] } := by
  have hreach : Reachable (exampleModel.data ⟨0, 0, true⟩ DisplayRole).model :=
    Reachable.data exampleModel ⟨0, 0, true⟩ DisplayRole exampleModel_reachable
  have h := C6_cache_never_stale (exampleModel.data ⟨0, 0, true⟩ DisplayRole).model hreach
  exact ⟨hreach, h.1 0 (exampleModel.processLine "error = disk full ") (by decide),
    h.2.1 ⟨0, 1, true⟩ DisplayRole, h.2.2.1 ⟨0, 1, true⟩ DisplayRole,
    (h.2.2.2 fooConfig
      { mConfig := fooConfig, mLines := exampleLines, mColumns := [], mLogLineCache := [] }
      rfl).1⟩

/-- C7 at work: line 0 of `exampleModel` is `error = disk full `; capture 2 is
` disk full `, and column 1 shows `disk full`. -/
theorem C7_cell_text_is_trimmed_capture_witness :
    (exampleModel.data ⟨0, 1, true⟩ DisplayRole).value =
      some (QVariant.string "disk full") := by
  obtain ⟨cell, _, htext, _, _, _, hdata⟩ :=
    C7_cell_text_is_trimmed_capture exampleModel "error = disk full " 1 (by decide) (by decide)
  have hv := hdata exampleModel_reachable ⟨0, 1, true⟩ (by decide) rfl
  have ht : trimmed ((exampleModel.mConfig.parser.doMatch "error = disk full ").captured (1 + 1))
      = "disk full" := by decide
  rw [hv, htext, ht]

/-- C8 amended, at work: row 5 of the two-line `fooModel` is out of range and
reads as empty without changing the model; its unmatched row 0 reads as empty at
column 3. -/
theorem C8_data_checks_row_only_witness :
    ((fooModel.data ⟨5, 0, true⟩ DisplayRole).value = some QVariant.invalid ∧
      (fooModel.data ⟨5, 0, true⟩ DisplayRole).model = fooModel) ∧
    (fooModel.data ⟨0, 3, true⟩ DisplayRole).value = some QVariant.invalid :=
  ⟨(C8_data_checks_row_only fooModel ⟨5, 0, true⟩ DisplayRole).1 (Or.inr (by decide)),
    (C8_data_checks_row_only fooModel ⟨0, 3, true⟩ DisplayRole).2 fooModel_reachable "bar"
      (by decide) (by decide) (by decide)⟩

/-- C9 at work: `setConfig(exampleConfig)` on `fooModel` (no column) gives the
columns `key` and `value`, and still two rows. -/
theorem C9_setConfig_rebuilds_columns_witness :
    ∃ m2 : LogModel, fooModel.setConfig exampleConfig = some m2 ∧
      m2.columns = ["key", "value"] ∧
      m2.columnCount QModelIndex.root = 2 ∧
      m2.headerData 1 Orientation.Horizontal DisplayRole = some (QVariant.string "value") ∧
      m2.rowCount QModelIndex.root = 2 := by
  obtain ⟨m2, hset, hcols, hcount, hnames, _, hrows⟩ :=
    C9_setConfig_rebuilds_columns fooModel exampleConfig (by decide)
  refine ⟨m2, hset, hcols, hcount, ?_, hrows⟩
  obtain ⟨name, hname, _, hheader⟩ := hnames 1 (by rw [hcount]; decide)
  have hk : exampleConfig.parser.namedCaptureGroups[1 + 1]? = some "value" := by decide
  rw [hk] at hname
  rw [← Option.some.inj hname] at hheader
  exact hheader

/-- C10 at work: the matched line 0 of `exampleModel` is parsed into two cells,
the read of row 0 at column 1 succeeds, and once row 0 has been read its cached
row has two cells. -/
theorem C10_matched_row_has_columnCount_cells_witness :
    ((exampleModel.processLine "error = disk full ").cells.length : Int) =
        exampleModel.columnCount QModelIndex.root ∧
      (∃ v, (exampleModel.data ⟨0, 1, true⟩ BackgroundColorRole).value = some v) ∧
      ((exampleModel.processLine "error = disk full ").cells.length : Int) =
        (exampleModel.data ⟨0, 0, true⟩ DisplayRole).model.columnCount QModelIndex.root :=
  ⟨(C10_matched_row_has_columnCount_cells exampleModel).1 "error = disk full " (by decide),
    ((C10_matched_row_has_columnCount_cells exampleModel).2 exampleModel_reachable).2
      ⟨0, 1, true⟩ BackgroundColorRole (by decide) (by decide) (by decide) (by decide),
    ((C10_matched_row_has_columnCount_cells
        (exampleModel.data ⟨0, 0, true⟩ DisplayRole).model).2
      (Reachable.data exampleModel ⟨0, 0, true⟩ DisplayRole exampleModel_reachable)).1
      0 (exampleModel.processLine "error = disk full ") (by decide) (Or.inl (by decide))⟩

/-! ## Searcher -/

theorem find_rowsFromTo_eq_some (first last : Nat) (p : Nat → Bool) (r : Nat) :
    (rowsFromTo first last).find? p = some r ↔
      p r = true ∧ first ≤ r ∧ r ≤ last ∧ ∀ j, first ≤ j → j < r → p j = false := by
  unfold rowsFromTo
  rw [List.find?_range'_eq_some]
  simp only [List.mem_range'_1, Bool.not_eq_eq_eq_not, Bool.not_true]
  constructor
  · rintro ⟨hp, ⟨h1, h2⟩, h3⟩
    exact ⟨hp, h1, by omega, h3⟩
  · rintro ⟨hp, h1, h2, h3⟩
    exact ⟨hp, ⟨h1, by omega⟩, h3⟩

theorem find_rowsFromTo_eq_none (first last : Nat) (p : Nat → Bool) :
    (rowsFromTo first last).find? p = none ↔ ∀ i, first ≤ i → i ≤ last → p i = false := by
  unfold rowsFromTo
  rw [List.find?_range'_eq_none]
  simp only [Bool.not_eq_eq_eq_not, Bool.not_true]
  constructor
  · intro h i h1 h2
    exact h i h1 (by omega)
  · intro h i h1 h2
    exact h i h1 (by omega)

theorem mem_rowsFromTo (first last r : Nat) :
    r ∈ rowsFromTo first last ↔ first ≤ r ∧ r ≤ last := by
  unfold rowsFromTo
  rw [List.mem_range'_1]
  omega

/-- A search over a data set in which no row matches finds nothing. -/
theorem search_no_match (noRow : Int) (searchable : Searchable) (condition : Condition)
    (direction : SearchDirection) (startRow : Nat)
    (hno : ∀ r, r < searchable.lineCount → searchable.lineMatches r condition = false) :
    Searcher.search noRow searchable condition direction startRow =
      SearchResponse.default noRow := by
  unfold Searcher.search
  by_cases h0 : searchable.lineCount = 0
  · simp [h0]
  · simp only [h0, if_false]
    have hdown : (rowsFromTo startRow (searchable.lineCount - 1)).find?
        (fun row => searchable.lineMatches row condition) = none := by
      rw [find_rowsFromTo_eq_none]
      intro i _ h2
      exact hno i (by omega)
    have hwrap : (rowsFromTo 0 (min startRow (searchable.lineCount - 1))).find?
        (fun row => searchable.lineMatches row condition) = none := by
      rw [find_rowsFromTo_eq_none]
      intro i _ h2
      exact hno i (by omega)
    have hup : (List.range (min startRow searchable.lineCount)).reverse.find?
        (fun row => searchable.lineMatches row condition) = none := by
      rw [List.find?_eq_none]
      intro x hx
      have hx2 := List.mem_range.mp (List.mem_reverse.mp hx)
      have := hno x (by omega)
      simp [this]
    have hupwrap : (rowsFromTo startRow (searchable.lineCount - 1)).reverse.find?
        (fun row => searchable.lineMatches row condition) = none := by
      rw [List.find?_eq_none]
      intro x hx
      have hx2 := (mem_rowsFromTo _ _ _).mp (List.mem_reverse.mp hx)
      have := hno x (by omega)
      simp [this]
    cases direction with
    | Down => simp only [hdown, hwrap]
    | Up => simp only [hup, hupwrap]

/-- C2: Down search with a match at or after the start row. For a data set and
a start row with some row `r` of the data set, `start <= r`, that matches (so
the data set has lines and the start row lies inside it), `Searcher::start` emits exactly one response, `DirectHit` at the smallest
matching row `r0` with `start <= r0` (so the start row itself counts, and no
wrapped result is reported). -/
theorem C2_down_direct_hit_nearest (noRow : Int) (searchable : Searchable)
    (condition : Condition) (startRow r : Nat)
    (hr1 : startRow ≤ r) (hr2 : r < searchable.lineCount)
    (hmatch : searchable.lineMatches r condition = true) :
    ∃ r0 : Nat,
      Searcher.start noRow searchable condition SearchDirection.Down startRow =
        [⟨SearchResult.DirectHit, (r0 : Int)⟩] ∧
      startRow ≤ r0 ∧ r0 ≤ r ∧ searchable.lineMatches r0 condition = true ∧
      ∀ j, startRow ≤ j → j < r0 → searchable.lineMatches j condition = false := by
  have h0 : searchable.lineCount ≠ 0 := by omega
  cases hfind : (rowsFromTo startRow (searchable.lineCount - 1)).find?
      (fun row => searchable.lineMatches row condition) with
  | none =>
    rw [find_rowsFromTo_eq_none] at hfind
    have := hfind r hr1 (by omega)
    simp only at this
    rw [hmatch] at this
    exact Bool.noConfusion this
  | some r0 =>
    have hspec := (find_rowsFromTo_eq_some _ _ _ _).mp hfind
    refine ⟨r0, ?_, hspec.2.1, ?_, hspec.1, hspec.2.2.2⟩
    · simp only [Searcher.start, Searcher.search, h0, if_false, hfind]
    · by_contra hlt
      have := hspec.2.2.2 r hr1 (by omega)
      simp only at this
      rw [hmatch] at this
      exact Bool.noConfusion this

/-- C3: a search that cannot match. For every data set, also an empty one, every
start row (inside the data set or past its end) and both directions: when no row of `0 .. lineCount-1` matches,
`Searcher::start` emits exactly one response, the default-constructed
`SearchResponse`, whose result is `NoHit`. -/
theorem C3_no_match_no_hit (noRow : Int) (searchable : Searchable) (condition : Condition)
    (direction : SearchDirection) (startRow : Nat)
    (hno : ∀ r, r < searchable.lineCount → searchable.lineMatches r condition = false) :
    Searcher.start noRow searchable condition direction startRow =
        [SearchResponse.default noRow] ∧
      (SearchResponse.default noRow).result = SearchResult.NoHit := by
  refine ⟨?_, rfl⟩
  unfold Searcher.start
  rw [search_no_match noRow searchable condition direction startRow hno]

/-- C4: Down search that has to wrap. For a data set with lines and a start row
inside it, when no row from the start row on matches but the row `r` before
it does, `Searcher::start` emits exactly one response, `WrappedDown` at `r0`,
the smallest matching row of the whole data set. -/
theorem C4_down_wraps_to_first_match (noRow : Int) (searchable : Searchable)
    (condition : Condition) (startRow r : Nat)
    (hstart : startRow < searchable.lineCount)
    (hafter : ∀ j, startRow ≤ j → j < searchable.lineCount →
      searchable.lineMatches j condition = false)
    (hr : r < startRow) (hmatch : searchable.lineMatches r condition = true) :
    ∃ r0 : Nat,
      Searcher.start noRow searchable condition SearchDirection.Down startRow =
        [⟨SearchResult.WrappedDown, (r0 : Int)⟩] ∧
      r0 < startRow ∧ searchable.lineMatches r0 condition = true ∧
      ∀ j, j < searchable.lineCount → searchable.lineMatches j condition = true → r0 ≤ j := by
  have h0 : searchable.lineCount ≠ 0 := by omega
  have hdown : (rowsFromTo startRow (searchable.lineCount - 1)).find?
      (fun row => searchable.lineMatches row condition) = none := by
    rw [find_rowsFromTo_eq_none]
    intro i h1 h2
    exact hafter i h1 (by omega)
  have hmin : min startRow (searchable.lineCount - 1) = startRow := by omega
  cases hfind : (rowsFromTo 0 startRow).find?
      (fun row => searchable.lineMatches row condition) with
  | none =>
    rw [find_rowsFromTo_eq_none] at hfind
    have := hfind r (Nat.zero_le r) (by omega)
    simp only at this
    rw [hmatch] at this
    exact Bool.noConfusion this
  | some r0 =>
    have hspec := (find_rowsFromTo_eq_some _ _ _ _).mp hfind
    have hr0 : r0 < startRow := by
      by_contra hge
      have hlt : ¬ r < r0 := by
        intro hlt
        have := hspec.2.2.2 r (Nat.zero_le r) hlt
        simp only at this
        rw [hmatch] at this
        exact Bool.noConfusion this
      omega
    refine ⟨r0, ?_, hr0, hspec.1, ?_⟩
    · simp only [Searcher.start, Searcher.search, h0, if_false, hdown, hmin, hfind]
    · intro j hj hjm
      by_contra hlt
      have := hspec.2.2.2 j (Nat.zero_le j) (by omega)
      simp only at this
      rw [hjm] at this
      exact Bool.noConfusion this

/-! ## The scenarios of SearcherTest.cpp -/

/-- C2 at work, the two `DirectHit` checks of the test: on `foo, bar, baz` with
the condition `^b`, Down from row 0 is a `DirectHit` at row 1 and Down from
row 2 is a `DirectHit` at row 2. -/
theorem C2_down_direct_hit_nearest_witness :
    Searcher.start (-1) (StringListSearchable testLines) (startsWithCondition 1 "b")
        SearchDirection.Down 0 = [⟨SearchResult.DirectHit, 1⟩] ∧
      Searcher.start (-1) (StringListSearchable testLines) (startsWithCondition 1 "b")
        SearchDirection.Down 2 = [⟨SearchResult.DirectHit, 2⟩] := by
  obtain ⟨a, ha, ha1, ha2, ha3, _⟩ :=
    C2_down_direct_hit_nearest (-1) (StringListSearchable testLines)
      (startsWithCondition 1 "b") 0 1 (by decide) (by decide) (by decide)
  obtain ⟨b, hb, hb1, hb2, _, _⟩ :=
    C2_down_direct_hit_nearest (-1) (StringListSearchable testLines)
      (startsWithCondition 1 "b") 2 2 (by decide) (by decide) (by decide)
  have hb' : b = 2 := by omega
  have ha' : a = 1 := by
    have hne : a ≠ 0 := by
      intro h
      subst h
      exact absurd ha3 (by decide)
    omega
  subst ha' hb'
  exact ⟨ha, hb⟩

/-- C3 at work, the `NoHit` check of the test and two more: the condition
`^notFound` on `foo, bar, baz` gives the default response Down from row 0 and Up
from row 2, and so does any search of an empty data set. -/
theorem C3_no_match_no_hit_witness :
    Searcher.start (-1) (StringListSearchable testLines) (startsWithCondition 1 "notFound")
        SearchDirection.Down 0 = [SearchResponse.default (-1)] ∧
      Searcher.start (-1) (StringListSearchable testLines) (startsWithCondition 1 "notFound")
        SearchDirection.Up 2 = [SearchResponse.default (-1)] ∧
      Searcher.start (-1) (StringListSearchable []) (startsWithCondition 1 "")
        SearchDirection.Down 7 = [SearchResponse.default (-1)] := by
  have hno : ∀ r, r < (StringListSearchable testLines).lineCount →
      (StringListSearchable testLines).lineMatches r (startsWithCondition 1 "notFound") =
        false := by
    intro r hr
    have hr3 : r < 3 := hr
    interval_cases r <;> decide
  have hempty : ∀ r, r < (StringListSearchable []).lineCount →
      (StringListSearchable []).lineMatches r (startsWithCondition 1 "") = false := by
    intro r hr
    exact absurd hr (Nat.not_lt_zero r)
  exact ⟨(C3_no_match_no_hit (-1) _ _ SearchDirection.Down 0 hno).1,
    (C3_no_match_no_hit (-1) _ _ SearchDirection.Up 2 hno).1,
    (C3_no_match_no_hit (-1) _ _ SearchDirection.Down 7 hempty).1⟩

/-- C4 at work, the wrap check of the test: on `foo, bar, baz` with the
condition `^foo`, Down from row 1 is `WrappedDown` at row 0. -/
theorem C4_down_wraps_to_first_match_witness :
    Searcher.start (-1) (StringListSearchable testLines) (startsWithCondition 1 "foo")
      SearchDirection.Down 1 = [⟨SearchResult.WrappedDown, 0⟩] := by
  have hafter : ∀ j, 1 ≤ j → j < (StringListSearchable testLines).lineCount →
      (StringListSearchable testLines).lineMatches j (startsWithCondition 1 "foo") = false := by
    intro j h1 hj
    have hj3 : j < 3 := hj
    interval_cases j <;> decide
  obtain ⟨r0, hr0, hlt, _, _⟩ :=
    C4_down_wraps_to_first_match (-1) (StringListSearchable testLines)
      (startsWithCondition 1 "foo") 1 0 (by decide) hafter (by decide) (by decide)
  have h0 : r0 = 0 := by omega
  subst h0
  exact hr0

end Lovi
